import Mathlib

/-
  Verification development for the gafro-extended blade-algebra engine.

  The definitions below are shallow embeddings of the C++ sources:
  - src/gafro/modern/GATerm.hpp          (Grade, GATerm variants, getGrade)
  - src/gafro/modern/PatternMatching.hpp (operations::add, operations::norm)
  - src/gafro/modern/GradeIndexed.hpp    (GradeIndexed, operator+, operator*)
  - src/gafro/modern/GradeChecking.hpp   (grade_calc, safe_ops)
  - src/gafro/algebra/InnerProductCayleyTable.hpp (Algebra::InnerProduct::Inner)
  Helpers that live outside these files (BladeBitmap grade/shift helpers,
  the geometric-product table builder) are modelled from the specification
  and are marked as such in their doc comments.
-/

namespace GafroSpec

/-- Grade enumeration from GATerm.hpp: SCALAR = 0, VECTOR = 1, BIVECTOR = 2,
TRIVECTOR = 3, MULTIVECTOR = -1 (general case). -/
inductive Grade where
  | SCALAR
  | VECTOR
  | BIVECTOR
  | TRIVECTOR
  | MULTIVECTOR
deriving DecidableEq, Repr

/-- The integer value of a Grade, as in the C++ enum `Grade : int`. -/
def Grade.toInt : Grade → Int
  | .SCALAR => 0
  | .VECTOR => 1
  | .BIVECTOR => 2
  | .TRIVECTOR => 3
  | .MULTIVECTOR => -1

/-- The C++ `static_cast<Grade>(g)` for the integer values that actually occur
(0..3 and -1). -/
def Grade.ofInt : Int → Grade
  | 0 => .SCALAR
  | 1 => .VECTOR
  | 2 => .BIVECTOR
  | 3 => .TRIVECTOR
  | _ => .MULTIVECTOR

/-- Blade indices are `int` in the source (`using Index = int`). -/
abbrev Index : Type := Int

/-- Blade term representation for general multivectors (GATerm.hpp,
struct BladeTerm): a list of basis indices and a coefficient. -/
structure BladeTerm (α : Type) where
  indices : List Index
  coefficient : α
deriving DecidableEq, Repr

/-- The GATerm sum type from GATerm.hpp: a variant over Scalar, sparse
vector, bivector, trivector and general-multivector representations. -/
inductive GATerm (α : Type) where
  | scalar : α → GATerm α
  | vector : List (Index × α) → GATerm α
  | bivector : List (Index × Index × α) → GATerm α
  | trivector : List (Index × Index × Index × α) → GATerm α
  | multivector : List (BladeTerm α) → GATerm α
deriving DecidableEq, Repr

/-- getGrade from GATerm.hpp: maps each variant to its Grade tag. -/
def getGrade {α : Type} : GATerm α → Grade
  | .scalar _ => .SCALAR
  | .vector _ => .VECTOR
  | .bivector _ => .BIVECTOR
  | .trivector _ => .TRIVECTOR
  | .multivector _ => .MULTIVECTOR

namespace operations

/-- One step of the inner loop of vector addition in operations::add
(PatternMatching.hpp): scan `result` for the first entry whose index equals
`idx` and add `coeff` into it; if none matches, append `(idx, coeff)` at the
end (`emplace_back`). -/
def addCoeff {α : Type} [Add α] : List (Index × α) → Index → α → List (Index × α)
  | [], idx, c => [(idx, c)]
  | (i, a) :: rest, idx, c =>
      if i = idx then (i, a + c) :: rest else (i, a) :: addCoeff rest idx c

/-- The vector-vector branch of operations::add: start from a copy of the
left components and fold every right component in with `addCoeff`. -/
def vecAdd {α : Type} [Add α] (l r : List (Index × α)) : List (Index × α) :=
  r.foldl (fun acc p => addCoeff acc p.1 p.2) l

/-- operations::add from PatternMatching.hpp. Different grades are rejected
with `none`; among equal variants only the scalar and vector branches are
implemented, every other same-variant pairing falls through to the
"Not implemented for this type" branch returning `none`. -/
def add {α : Type} [Add α] (lhs rhs : GATerm α) : Option (GATerm α) :=
  if getGrade lhs ≠ getGrade rhs then none
  else
    match lhs, rhs with
    | .scalar a, .scalar b => some (.scalar (a + b))
    | .vector a, .vector b => some (.vector (vecAdd a b))
    | _, _ => none

/-- operations::norm from PatternMatching.hpp: absolute value for the scalar
variant; for every list variant, the square root of the running sum
`sum += coeff * coeff` started from `T{}`. -/
noncomputable def norm : GATerm ℝ → ℝ
  | .scalar v => |v|
  | .vector l => Real.sqrt (l.foldl (fun s p => s + p.2 * p.2) 0)
  | .bivector l => Real.sqrt (l.foldl (fun s p => s + p.2.2 * p.2.2) 0)
  | .trivector l => Real.sqrt (l.foldl (fun s p => s + p.2.2.2 * p.2.2.2) 0)
  | .multivector l =>
      Real.sqrt (l.foldl (fun s t => s + t.coefficient * t.coefficient) 0)

end operations

/-- The list of all stored coefficients of a GATerm, in storage order. This
is the spec-side notion used to state the norm claim ("sum of the squares of
all stored coefficients"). -/
def coeffList : GATerm ℝ → List ℝ
  | .scalar v => [v]
  | .vector l => l.map (·.2)
  | .bivector l => l.map (·.2.2)
  | .trivector l => l.map (·.2.2.2)
  | .multivector l => l.map (·.coefficient)

/-- GradeIndexed from GradeIndexed.hpp: a payload paired with a grade tag. -/
structure GradeIndexed (α : Type) (G : Grade) where
  value : α
deriving DecidableEq, Repr

/-- operator+ on GradeIndexed (GradeIndexed.hpp): in the SCALAR branch the
payloads are summed; in every other branch the result is a copy of the left
payload (the component-wise addition is left unimplemented). -/
def giAdd {α : Type} [Add α] {G : Grade} (lhs rhs : GradeIndexed α G) :
    GradeIndexed α G :=
  if G = Grade.SCALAR then ⟨lhs.value + rhs.value⟩ else ⟨lhs.value⟩

/-- operator*(scalar, GradeIndexed) from GradeIndexed.hpp: in the SCALAR
branch the payload is multiplied by the scalar; in every other branch the
result is a copy of the right payload (scaling is left unimplemented). -/
def giScalarMul {α : Type} [Mul α] {G : Grade} (scalar : α)
    (rhs : GradeIndexed α G) : GradeIndexed α G :=
  if G = Grade.SCALAR then ⟨scalar * rhs.value⟩ else ⟨rhs.value⟩

namespace grade_calc

/-- The sequence of loop-counter values of the `for` loop in
grade_calc::geometricProductGrades: `g = |g1-g2|, |g1-g2|+2, ..., g1+g2`. -/
def gradeSeq (g1 g2 : Int) : List Int :=
  if g1 + g2 < (g1 - g2).natAbs then []
  else
    (List.range ((g1 + g2 - (g1 - g2).natAbs).toNat / 2 + 1)).map
      (fun t => ((g1 - g2).natAbs : Int) + 2 * t)

/-- grade_calc::geometricProductGrades from GradeChecking.hpp: an 8-slot
array value-initialized to SCALAR together with the fill count; the loop
writes `static_cast<Grade>(g)` at position `count` for every loop value `g`
with `g <= 3 && count < 8`. -/
def geometricProductGrades (G1 G2 : Grade) : List Grade × Nat :=
  (gradeSeq G1.toInt G2.toInt).foldl
    (fun acc g =>
      if g ≤ 3 ∧ acc.2 < 8 then (acc.1.set acc.2 (Grade.ofInt g), acc.2 + 1)
      else acc)
    (List.replicate 8 Grade.SCALAR, 0)

/-- grade_calc::outerProductGrade: `g1 + g2` cast to Grade when at most 3,
otherwise Grade::MULTIVECTOR. -/
def outerProductGrade (G1 G2 : Grade) : Grade :=
  if G1.toInt + G2.toInt ≤ 3 then Grade.ofInt (G1.toInt + G2.toInt)
  else Grade.MULTIVECTOR

/-- grade_calc::innerProductGrade: `|g1 - g2|` cast to Grade when at most 3,
otherwise Grade::MULTIVECTOR. -/
def innerProductGrade (G1 G2 : Grade) : Grade :=
  if ((G1.toInt - G2.toInt).natAbs : Int) ≤ 3 then
    Grade.ofInt (G1.toInt - G2.toInt).natAbs
  else Grade.MULTIVECTOR

end grade_calc

/-- The spec-side list of the geometric product's potential result grades:
every grade `g` with `|g1-g2| <= g <= g1+g2` stepping by 2 (no clamping). -/
def specGeometricGrades (g1 g2 : Int) : List Int :=
  if g1 + g2 < (g1 - g2).natAbs then []
  else
    (List.range ((g1 + g2 - (g1 - g2).natAbs).toNat / 2 + 1)).map
      (fun t => ((g1 - g2).natAbs : Int) + 2 * t)

namespace safe_ops

/-- The three possible return shapes of safe_ops::outerProduct and
safe_ops::innerProduct in GradeChecking.hpp: a SCALAR-tagged GradeIndexed
over the coefficient type, a VECTOR-tagged GradeIndexed over a sparse vector,
or a MULTIVECTOR-tagged GradeIndexed over a list of BladeTerms. Coefficients
are taken in ℚ for the common result type. -/
inductive SafeOpResult where
  | scalarResult : GradeIndexed ℚ Grade.SCALAR → SafeOpResult
  | vectorResult : GradeIndexed (List (Index × ℚ)) Grade.VECTOR → SafeOpResult
  | multivectorResult :
      GradeIndexed (List (BladeTerm ℚ)) Grade.MULTIVECTOR → SafeOpResult
deriving DecidableEq, Repr

/-- safe_ops::outerProduct from GradeChecking.hpp: computes the result grade
with grade_calc::outerProductGrade and returns a value-initialized payload
(`ResultType{}` or an empty vector) in the branch selected by that grade; the
operand payloads are never inspected. -/
def outerProduct {α β : Type} {G1 G2 : Grade} (lhs : GradeIndexed α G1)
    (rhs : GradeIndexed β G2) : SafeOpResult :=
  if grade_calc.outerProductGrade G1 G2 = Grade.SCALAR then
    .scalarResult ⟨0⟩
  else if grade_calc.outerProductGrade G1 G2 = Grade.VECTOR then
    .vectorResult ⟨[]⟩
  else
    .multivectorResult ⟨[]⟩

/-- safe_ops::innerProduct from GradeChecking.hpp: same structure as
safe_ops::outerProduct, with grade_calc::innerProductGrade selecting the
branch; the operand payloads are never inspected. -/
def innerProduct {α β : Type} {G1 G2 : Grade} (lhs : GradeIndexed α G1)
    (rhs : GradeIndexed β G2) : SafeOpResult :=
  if grade_calc.innerProductGrade G1 G2 = Grade.SCALAR then
    .scalarResult ⟨0⟩
  else if grade_calc.innerProductGrade G1 G2 = Grade.VECTOR then
    .vectorResult ⟨[]⟩
  else
    .multivectorResult ⟨[]⟩

/-- The payload of a SafeOpResult is the empty or default value of its
branch: zero for the scalar branch, the empty list otherwise. -/
def emptyPayload : SafeOpResult → Prop
  | .scalarResult v => v.value = 0
  | .vectorResult v => v.value = []
  | .multivectorResult v => v.value = []

end safe_ops

/-- Modelled from the spec: `BladeBitmap::getGrade<blade>()` is not under
src/; per the data model a blade's grade is the popcount of its mask, here
counted over the algebra's `dim` bit positions. -/
def grade (dim n : Nat) : Nat :=
  ((List.range dim).filter (fun i => n.testBit i)).length

/-- Modelled from the spec: the two-argument `BladeBitmap::getGrade<b1,b2>()`
used by the inner-product grade check is not under src/; per the spec the
inner product's expected result grade is `|grade(b1) - grade(b2)|`. -/
def absGradeDiff (dim b1 b2 : Nat) : Nat :=
  ((grade dim b1 : Int) - (grade dim b2 : Int)).natAbs

/-- Modelled from the spec: `BladeBitmap::getLeftShifts` is not under src/;
per the spec's transposition-counting rule it counts the basis vectors of
the mask that the contracted index `j` must be transposed past, i.e. the set
bits of the mask strictly below position `j`. -/
def countBitsBelow (j m : Nat) : Nat :=
  ((List.range j).filter (fun k => m.testBit k)).length

/-- Modelled from the spec: `BladeBitmap::getRightShifts` is not under src/;
per the spec's transposition-counting rule it counts the set bits of the
mask strictly above position `i` (within the algebra's dimension). -/
def countBitsAbove (dim i m : Nat) : Nat :=
  ((List.range dim).filter (fun k => i < k ∧ m.testBit k)).length

/-- Modelled from the spec: the `math::pown` transposition-sign factor is
not under src/; each transposition of distinct basis vectors contributes a
factor of -1, so the factor is `(-1)^(shifts)`. It is always ±1. -/
def shiftSign (dim i j lhs rhs : Nat) : Int :=
  (-1 : Int) ^ (countBitsAbove dim i lhs + countBitsBelow j rhs)

/-- The iteration order of the template recursion in
Algebra::InnerProduct::Inner (InnerProductCayleyTable.hpp): pairs `(i, j)`
with the `j` index innermost, both ranging over `[0, dim)`. -/
def pairsList (dim : Nat) : List (Nat × Nat) :=
  (List.range dim).flatMap (fun i => (List.range dim).map (fun j => (i, j)))

/-- One step of `Inner::recurse` (InnerProductCayleyTable.hpp): if the
metric entry `(i, j)` is nonzero and bit `i` is set in the original `b1` and
bit `j` is set in the original `b2`, contract: clear bit `i` from the
running left mask and bit `j` from the running right mask and multiply the
running sign by the metric entry and the transposition sign; otherwise leave
the state unchanged. The state is `(lhs, rhs, sign)`. -/
def innerStep (dim : Nat) (metric : Nat → Nat → Int) (b1 b2 : Nat)
    (st : Nat × Nat × Int) (p : Nat × Nat) : Nat × Nat × Int :=
  if metric p.1 p.2 ≠ 0 ∧ b1.testBit p.1 ∧ b2.testBit p.2 then
    (st.1 ^^^ 2 ^ p.1, st.2.1 ^^^ 2 ^ p.2,
      st.2.2 * metric p.1 p.2 * shiftSign dim p.1 p.2 st.1 st.2.1)
  else st

/-- The full scan of the template recursion `Inner::recurse`/`Inner::next`
(InnerProductCayleyTable.hpp), started from the state `(b1, b2, 1)` as in
`recurse<0, 0, b1, b2, 1>()`. -/
def innerScanResult (dim : Nat) (metric : Nat → Nat → Int) (b1 b2 : Nat) :
    Nat × Nat × Int :=
  (pairsList dim).foldl (innerStep dim metric b1 b2) (b1, b2, 1)

/-- The inner-product Cayley entry `Inner<b1, b2>::result` from
InnerProductCayleyTable.hpp: if either operand is the scalar blade the entry
is `(0, 0)`; otherwise the recursion scans all index pairs from the state
`(b1, b2, 1)` and the terminal check returns the blade `lhs ^^^ rhs` with
sign 0 when the surviving masks overlap or the result grade differs from
`|grade(b1) - grade(b2)|`, and with the accumulated sign otherwise. -/
def innerEntry (dim : Nat) (metric : Nat → Nat → Int) (b1 b2 : Nat) :
    Nat × Int :=
  if b1 = 0 ∨ b2 = 0 then (0, 0)
  else if (innerScanResult dim metric b1 b2).1 &&&
        (innerScanResult dim metric b1 b2).2.1 ≠ 0 ∨
      grade dim ((innerScanResult dim metric b1 b2).1 ^^^
        (innerScanResult dim metric b1 b2).2.1) ≠ absGradeDiff dim b1 b2 then
    ((innerScanResult dim metric b1 b2).1 ^^^
      (innerScanResult dim metric b1 b2).2.1, 0)
  else
    ((innerScanResult dim metric b1 b2).1 ^^^
      (innerScanResult dim metric b1 b2).2.1,
      (innerScanResult dim metric b1 b2).2.2)

/-- The `signs` array of Algebra::InnerProduct (InnerProductCayleyTable.hpp):
a one-element array holding the sign when the entry is valid (nonzero sign),
and the empty array otherwise. -/
def innerSigns (dim : Nat) (metric : Nat → Nat → Int) (b1 b2 : Nat) :
    List Int :=
  if (innerEntry dim metric b1 b2).2 ≠ 0 then [(innerEntry dim metric b1 b2).2]
  else []

/-- The ascending list of basis-vector indices present in a blade mask. -/
def bladeIndices (dim b : Nat) : List Nat :=
  (List.range dim).filter (fun i => b.testBit i)

/-- The mask encoded by a list of distinct basis-vector indices. -/
def maskOf (l : List Nat) : Nat :=
  (l.map (fun i => 2 ^ i)).sum

/-- Modelled from the spec: the geometric-product Cayley builder is not
under src/. Per §4.2 the basis vector `i` is inserted into the
already-canonical right-hand sequence by adjacent transpositions, each
transposition of distinct indices multiplying the sign by -1; when two equal
indices meet they annihilate into the metric's self-contraction value. -/
def insertIdx (metric : Nat → Nat → Int) : Nat → List Nat → Int × List Nat
  | i, [] => (1, [i])
  | i, x :: xs =>
      if i < x then (1, i :: x :: xs)
      else if i = x then (metric i i, xs)
      else
        let r := insertIdx metric i xs
        (-r.1, x :: r.2)

/-- Modelled from the spec: interleave-sort the concatenated basis-vector
sequence of `b1` followed by `b2` (§4.2 step 2). The left sequence is
processed from its rightmost (largest) index inward, each index being
inserted into the canonical right-hand sequence with `insertIdx`; the signs
of all insertions are multiplied. -/
def geoMergeRev (metric : Nat → Nat → Int) :
    List Nat → List Nat → Int × List Nat
  | [], ys => (1, ys)
  | x :: xs, ys =>
      let r := insertIdx metric x ys
      let r2 := geoMergeRev metric xs r.2
      (r.1 * r2.1, r2.2)

/-- Modelled from the spec: the geometric-product Cayley entry (§4.2 steps
1-3). The surviving sorted sequence gives the result mask and the
accumulated sign gives the entry's sign; when a zero self-contraction makes
the sign vanish the entry is the zero entry on the scalar blade. -/
def geoEntry (dim : Nat) (metric : Nat → Nat → Int) (b1 b2 : Nat) :
    Nat × Int :=
  let r := geoMergeRev metric (bladeIndices dim b1).reverse (bladeIndices dim b2)
  if r.1 = 0 then (0, 0) else (maskOf r.2, r.1)

/-- The Euclidean (identity) metric: 1 on the diagonal, 0 elsewhere. -/
def euclideanMetric : Nat → Nat → Int :=
  fun i j => if i = j then 1 else 0

/-- A metric with a nonzero off-diagonal entry between basis vectors 0 and 1
(as in a conformal null-vector pair): 1 on the diagonal and at (0, 1). -/
def offDiagMetric : Nat → Nat → Int :=
  fun i j => if i = j then 1 else if i = 0 ∧ j = 1 then 1 else 0

/-- C1 counterexample: two terms of the same bivector variant (equal grades)
for which operations::add still returns no result, because the bivector
branch is unimplemented. -/
theorem add_same_variant_counterexample :
    getGrade (GATerm.bivector [((0 : Index), (1 : Index), (2 : ℚ))]) =
      getGrade (GATerm.bivector [((0 : Index), (1 : Index), (3 : ℚ))]) ∧
    operations.add (GATerm.bivector [((0 : Index), (1 : Index), (2 : ℚ))])
      (GATerm.bivector [((0 : Index), (1 : Index), (3 : ℚ))]) = none :=
  ⟨rfl, rfl⟩

/-- C1 (amended): operations::add returns a summed term exactly in the
scalar-scalar and vector-vector cases; every other pairing — differing
variants, but also the same-variant bivector, trivector and
general-multivector cases, whose branches are unimplemented — returns the
typed absence `none`. -/
theorem add_characterization (lhs rhs : GATerm ℚ) :
    operations.add lhs rhs =
      match lhs, rhs with
      | .scalar a, .scalar b => some (.scalar (a + b))
      | .vector a, .vector b => some (.vector (operations.vecAdd a b))
      | _, _ => none := by
  cases lhs <;> cases rhs <;> rfl

/-- C4 counterexample: for two bivector operands the claim's grade list is
`[0, 2, 4]`, but the filled part of the array computed by
grade_calc::geometricProductGrades is `[0, 2]` — grade 4 is dropped by the
`g <= 3` clamp. -/
theorem geometricProductGrades_counterexample :
    ¬ ((grade_calc.geometricProductGrades Grade.BIVECTOR Grade.BIVECTOR).1.take
        (grade_calc.geometricProductGrades Grade.BIVECTOR Grade.BIVECTOR).2).map
        Grade.toInt =
      specGeometricGrades Grade.BIVECTOR.toInt Grade.BIVECTOR.toInt := by
  decide

/-- C4 (amended): for grade tags with nonnegative integer value (SCALAR,
VECTOR, BIVECTOR, TRIVECTOR), the filled part of the array returned by
grade_calc::geometricProductGrades holds exactly the grades `g` with
`|g1-g2| <= g <= g1+g2` stepping by 2 that additionally satisfy `g <= 3`;
grades above 3 are dropped. -/
theorem geometricProductGrades_clamped (G1 G2 : Grade)
    (h1 : 0 ≤ G1.toInt) (h2 : 0 ≤ G2.toInt) :
    ((grade_calc.geometricProductGrades G1 G2).1.take
        (grade_calc.geometricProductGrades G1 G2).2).map Grade.toInt =
      (specGeometricGrades G1.toInt G2.toInt).filter (fun g => g ≤ 3) := by
  cases G1 <;> cases G2 <;> revert h1 h2 <;> decide

/-- Witness for C4: the amended statement instantiated at the
vector-trivector pair, where the spec range `[2, 4]` is clamped to `[2]`. -/
theorem geometricProductGrades_clamped_witness :
    ((grade_calc.geometricProductGrades Grade.VECTOR Grade.TRIVECTOR).1.take
        (grade_calc.geometricProductGrades Grade.VECTOR Grade.TRIVECTOR).2).map
        Grade.toInt =
      (specGeometricGrades Grade.VECTOR.toInt Grade.TRIVECTOR.toInt).filter
        (fun g => g ≤ 3) :=
  geometricProductGrades_clamped Grade.VECTOR Grade.TRIVECTOR (by decide)
    (by decide)

/-- Folding `s + f x` over a list starting from `a` gives `a` plus the sum
of the mapped list. -/
theorem foldl_add_eq_sum {α : Type} (f : α → ℝ) (l : List α) (a : ℝ) :
    l.foldl (fun s x => s + f x) a = a + (l.map f).sum := by
  induction l generalizing a with
  | nil => simp
  | cons x xs ih => simp [ih, add_assoc]

/-- C6: operations::norm equals the square root of the sum of the squares of
all stored coefficients, for every variant; in particular the scalar branch
`|v|` agrees with `sqrt (v * v)`. No metric contraction is applied. -/
theorem norm_eq_sqrt_sum_squares (t : GATerm ℝ) :
    operations.norm t = Real.sqrt (((coeffList t).map (fun c => c * c)).sum) := by
  cases t with
  | scalar v =>
      simp [operations.norm, coeffList, Real.sqrt_mul_self_eq_abs]
  | vector l =>
      simp only [operations.norm, coeffList, foldl_add_eq_sum, List.map_map,
        zero_add]
      rfl
  | bivector l =>
      simp only [operations.norm, coeffList, foldl_add_eq_sum, List.map_map,
        zero_add]
      rfl
  | trivector l =>
      simp only [operations.norm, coeffList, foldl_add_eq_sum, List.map_map,
        zero_add]
      rfl
  | multivector l =>
      simp only [operations.norm, coeffList, foldl_add_eq_sum, List.map_map,
        zero_add]
      rfl

/-- Adding a zero coefficient at an index that is already present leaves the
component list unchanged. -/
theorem addCoeff_zero_mem (l : List (Index × ℚ)) (idx : Index)
    (h : idx ∈ l.map Prod.fst) : operations.addCoeff l idx 0 = l := by
  induction l with
  | nil => simp at h
  | cons p rest ih =>
      obtain ⟨i, a⟩ := p
      by_cases hp : i = idx
      · simp [operations.addCoeff, hp]
      · have hmem : idx ∈ rest.map Prod.fst := by
          rcases List.mem_cons.mp h with h1 | h1
          · exact absurd h1.symm hp
          · exact h1
        simp [operations.addCoeff, hp, ih hmem]

/-- Folding addCoeff with zero coefficients over indices that all occur in
the base list leaves the base list unchanged. -/
theorem foldl_addCoeff_zeros (a : List (Index × ℚ)) (idxs : List Index)
    (h : ∀ i ∈ idxs, i ∈ a.map Prod.fst) :
    (idxs.map (fun i => (i, (0 : ℚ)))).foldl
      (fun acc p => operations.addCoeff acc p.1 p.2) a = a := by
  induction idxs with
  | nil => rfl
  | cons i rest ih =>
      simp only [List.map_cons, List.foldl_cons]
      rw [addCoeff_zero_mem a i (h i (List.mem_cons_self i rest))]
      exact ih (fun j hj => h j (List.mem_cons_of_mem i hj))

/-- C8: for a vector-variant term with unique indices, adding the
zero-coefficient vector of the same support returns the original
coefficients: the zero term of identical support is an additive identity
for operations::add. -/
theorem add_zero_vector (a : List (Index × ℚ)) (h : (a.map Prod.fst).Nodup) :
    operations.add (GATerm.vector a)
      (GATerm.vector (a.map (fun p => (p.1, (0 : ℚ))))) =
      some (GATerm.vector a) := by
  have hz : a.map (fun p => (p.1, (0 : ℚ))) =
      (a.map Prod.fst).map (fun i => (i, (0 : ℚ))) := by
    rw [List.map_map]
    rfl
  have hv : operations.vecAdd a (a.map (fun p => (p.1, (0 : ℚ)))) = a := by
    rw [operations.vecAdd, hz]
    exact foldl_addCoeff_zeros a (a.map Prod.fst) (fun i hi => hi)
  show operations.add (GATerm.vector a) (GATerm.vector _) = _
  rw [operations.add]
  simp only [getGrade, ne_eq, not_true_eq_false, if_false, hv]

/-- Witness for C8: the additive-identity theorem applied to the concrete
vector `2 e0 + 5 e2`, whose index list `[0, 2]` has no duplicates. -/
theorem add_zero_vector_witness :
    operations.add (GATerm.vector [((0 : Index), (2 : ℚ)), ((2 : Index), (5 : ℚ))])
      (GATerm.vector ([((0 : Index), (2 : ℚ)), ((2 : Index), (5 : ℚ))].map
        (fun p => (p.1, (0 : ℚ))))) =
      some (GATerm.vector [((0 : Index), (2 : ℚ)), ((2 : Index), (5 : ℚ))]) :=
  add_zero_vector [((0 : Index), (2 : ℚ)), ((2 : Index), (5 : ℚ))] (by decide)

/-- C9: for every grade other than SCALAR, operator+ on GradeIndexed returns
the left payload with the right operand never added in, and scalar
multiplication returns the right payload with the scalar never applied;
only the SCALAR branches compute a sum or a product. -/
theorem gradeIndexed_stub_ops (G : Grade) (h : G ≠ Grade.SCALAR)
    (lhs rhs : GradeIndexed ℚ G) (s : ℚ)
    (a b : GradeIndexed ℚ Grade.SCALAR) (c : ℚ) :
    giAdd lhs rhs = ⟨lhs.value⟩ ∧ giScalarMul s rhs = ⟨rhs.value⟩ ∧
    giAdd a b = ⟨a.value + b.value⟩ ∧ giScalarMul c b = ⟨c * b.value⟩ := by
  refine ⟨?_, ?_, ?_, ?_⟩ <;> simp [giAdd, giScalarMul, h]

/-- Witness for C9: the stub behavior at grade VECTOR and the computing
behavior at grade SCALAR, on concrete rational payloads. -/
theorem gradeIndexed_stub_ops_witness :
    giAdd (⟨3⟩ : GradeIndexed ℚ Grade.VECTOR) ⟨5⟩ = ⟨3⟩ ∧
    giScalarMul 7 (⟨5⟩ : GradeIndexed ℚ Grade.VECTOR) = ⟨5⟩ ∧
    giAdd (⟨2⟩ : GradeIndexed ℚ Grade.SCALAR) ⟨4⟩ = ⟨2 + 4⟩ ∧
    giScalarMul 7 (⟨4⟩ : GradeIndexed ℚ Grade.SCALAR) = ⟨7 * 4⟩ :=
  gradeIndexed_stub_ops Grade.VECTOR (by decide) ⟨3⟩ ⟨5⟩ 7 ⟨2⟩ ⟨4⟩ 7

/-- C10: safe_ops::outerProduct and safe_ops::innerProduct return a result
whose payload is the empty or default value of the branch selected by the
grade-arithmetic rules, and the operands' stored payloads are never read:
replacing either operand by any other of the same grade leaves the result
unchanged. -/
theorem safe_ops_placeholder {α β : Type} {G1 G2 : Grade}
    (lhs lhs2 : GradeIndexed α G1) (rhs rhs2 : GradeIndexed β G2) :
    safe_ops.emptyPayload (safe_ops.outerProduct lhs rhs) ∧
    safe_ops.emptyPayload (safe_ops.innerProduct lhs rhs) ∧
    safe_ops.outerProduct lhs rhs = safe_ops.outerProduct lhs2 rhs2 ∧
    safe_ops.innerProduct lhs rhs = safe_ops.innerProduct lhs2 rhs2 := by
  refine ⟨?_, ?_, rfl, rfl⟩
  · unfold safe_ops.outerProduct
    split
    · exact rfl
    · split
      · exact rfl
      · exact rfl
  · unfold safe_ops.innerProduct
    split
    · exact rfl
    · split
      · exact rfl
      · exact rfl

/-- Every pair produced by pairsList has both components below dim. -/
theorem pairsList_mem {dim : Nat} {p : Nat × Nat} (h : p ∈ pairsList dim) :
    p.1 < dim ∧ p.2 < dim := by
  unfold pairsList at h
  rcases List.mem_flatMap.mp h with ⟨i, hi, hmem⟩
  rcases List.mem_map.mp hmem with ⟨j, hj, rfl⟩
  exact ⟨List.mem_range.mp hi, List.mem_range.mp hj⟩

/-- The recursion of the inner-product table keeps both running masks below
`2 ^ dim`: every contraction only toggles a bit at a position below dim. -/
theorem innerScan_bounds (dim : Nat) (metric : Nat → Nat → Int) (b1 b2 : Nat)
    (ps : List (Nat × Nat)) (hps : ∀ p ∈ ps, p.1 < dim ∧ p.2 < dim)
    (st : Nat × Nat × Int) (h1 : st.1 < 2 ^ dim) (h2 : st.2.1 < 2 ^ dim) :
    (ps.foldl (innerStep dim metric b1 b2) st).1 < 2 ^ dim ∧
    (ps.foldl (innerStep dim metric b1 b2) st).2.1 < 2 ^ dim := by
  induction ps generalizing st with
  | nil => exact ⟨h1, h2⟩
  | cons p rest ih =>
      have hp := hps p (List.mem_cons_self p rest)
      have hstep : (innerStep dim metric b1 b2 st p).1 < 2 ^ dim ∧
          (innerStep dim metric b1 b2 st p).2.1 < 2 ^ dim := by
        unfold innerStep
        split
        · exact ⟨Nat.xor_lt_two_pow h1
            (Nat.pow_lt_pow_right (by norm_num) hp.1),
            Nat.xor_lt_two_pow h2 (Nat.pow_lt_pow_right (by norm_num) hp.2)⟩
        · exact ⟨h1, h2⟩
      rw [List.foldl_cons]
      exact (fun hq => ih (fun q hmem => hps q (List.mem_cons_of_mem p hmem))
        _ hq.1 hq.2) hstep

/-- The signs array is empty exactly when the entry's sign is zero. -/
theorem innerSigns_empty_iff (dim : Nat) (metric : Nat → Nat → Int)
    (b1 b2 : Nat) :
    (innerEntry dim metric b1 b2).2 = 0 ↔ innerSigns dim metric b1 b2 = [] := by
  by_cases hz : (innerEntry dim metric b1 b2).2 = 0 <;> simp [innerSigns, hz]

/-- C2: the inner-product Cayley table is total: for every pair of blade
bitmasks inside the algebra, the computed entry carries a result blade that
is again a blade of the algebra (below 2 ^ dim) together with a sign, and an
invalid pair is represented by a zero sign and the empty signs array, never
by an absent entry. -/
theorem innerTable_total (dim : Nat) (metric : Nat → Nat → Int) (b1 b2 : Nat)
    (h1 : b1 < 2 ^ dim) (h2 : b2 < 2 ^ dim) :
    (innerEntry dim metric b1 b2).1 < 2 ^ dim ∧
    ((innerEntry dim metric b1 b2).2 = 0 ↔
      innerSigns dim metric b1 b2 = []) := by
  refine ⟨?_, innerSigns_empty_iff dim metric b1 b2⟩
  have hscan := innerScan_bounds dim metric b1 b2 (pairsList dim)
    (fun p hp => pairsList_mem hp) (b1, b2, 1) h1 h2
  unfold innerEntry
  split
  · exact Nat.two_pow_pos dim
  · split
    · exact Nat.xor_lt_two_pow hscan.1 hscan.2
    · exact Nat.xor_lt_two_pow hscan.1 hscan.2

/-- Witness for C2: the totality statement at the Euclidean 2-dimensional
algebra on the blade pair (e0, e0e1). -/
theorem innerTable_total_witness :
    (1 : Nat) < 2 ^ 2 ∧ (3 : Nat) < 2 ^ 2 ∧
    ((innerEntry 2 euclideanMetric 1 3).1 < 2 ^ 2 ∧
      ((innerEntry 2 euclideanMetric 1 3).2 = 0 ↔
        innerSigns 2 euclideanMetric 1 3 = [])) :=
  ⟨by decide, by decide,
    innerTable_total 2 euclideanMetric 1 3 (by decide) (by decide)⟩

/-- C3: whenever the inner-product Cayley entry has a nonzero sign, the
grade of its result blade is the absolute difference of the operand
grades. -/
theorem inner_grade_law (dim : Nat) (metric : Nat → Nat → Int) (b1 b2 : Nat)
    (h : (innerEntry dim metric b1 b2).2 ≠ 0) :
    grade dim (innerEntry dim metric b1 b2).1 = absGradeDiff dim b1 b2 := by
  by_cases hb : b1 = 0 ∨ b2 = 0
  · exfalso
    apply h
    unfold innerEntry
    rw [if_pos hb]
  · by_cases hg : (innerScanResult dim metric b1 b2).1 &&&
        (innerScanResult dim metric b1 b2).2.1 ≠ 0 ∨
        grade dim ((innerScanResult dim metric b1 b2).1 ^^^
          (innerScanResult dim metric b1 b2).2.1) ≠ absGradeDiff dim b1 b2
    · exfalso
      apply h
      unfold innerEntry
      rw [if_neg hb, if_pos hg]
    · unfold innerEntry
      rw [if_neg hb, if_neg hg]
      push_neg at hg
      exact hg.2

/-- Witness for C3: the grade law at the Euclidean 2-dimensional algebra on
the pair (e0, e0e1), whose entry is the blade e1 with sign 1 and grade
|1 - 2| = 1. -/
theorem inner_grade_law_witness :
    (innerEntry 2 euclideanMetric 1 3).2 ≠ 0 ∧
    grade 2 (innerEntry 2 euclideanMetric 1 3).1 = absGradeDiff 2 1 3 :=
  ⟨by decide, inner_grade_law 2 euclideanMetric 1 3 (by decide)⟩

/-- C5 counterexample: under a metric with a nonzero off-diagonal entry
between basis vectors 0 and 1, the blades e0 (mask 1) and e1 (mask 2) have
disjoint masks yet their inner-product Cayley entry has the nonzero sign 1:
non-overlapping pairs are not always zero entries. -/
theorem inner_disjoint_counterexample :
    (1 : Nat) &&& 2 = 0 ∧ (innerEntry 2 offDiagMetric 1 2).2 ≠ 0 := by
  decide

/-- grade over dim+1 bits is the grade over dim bits plus the top bit. -/
theorem grade_succ (n m : Nat) :
    grade (n + 1) m = grade n m + (if m.testBit n then 1 else 0) := by
  unfold grade
  rw [List.range_succ, List.filter_append, List.length_append]
  by_cases h : m.testBit n <;> simp [h]

/-- For masks with disjoint bits, the grade of the XOR is the sum of the
grades. -/
theorem grade_xor_disjoint (dim b1 b2 : Nat) (hd : b1 &&& b2 = 0) :
    grade dim (b1 ^^^ b2) = grade dim b1 + grade dim b2 := by
  induction dim with
  | zero => rfl
  | succ n ih =>
      have hbit : ¬(b1.testBit n = true ∧ b2.testBit n = true) := by
        rintro ⟨x1, x2⟩
        have hland := Nat.testBit_land b1 b2 n
        rw [hd, Nat.zero_testBit, x1, x2] at hland
        exact Bool.false_ne_true hland
      rw [grade_succ, grade_succ, grade_succ, Nat.testBit_xor]
      cases hb1 : b1.testBit n <;> cases hb2 : b2.testBit n <;>
        simp [hb1, hb2] at hbit ⊢ <;> omega

/-- A nonzero mask below 2 ^ dim has positive grade. -/
theorem grade_pos (dim b : Nat) (hlt : b < 2 ^ dim) (hne : b ≠ 0) :
    0 < grade dim b := by
  by_contra hcon
  push_neg at hcon
  apply hne
  have hfil : (List.range dim).filter (fun i => b.testBit i) = [] :=
    List.eq_nil_of_length_eq_zero (Nat.le_zero.mp hcon)
  have hall := List.filter_eq_nil_iff.mp hfil
  apply Nat.eq_of_testBit_eq
  intro i
  rw [Nat.zero_testBit]
  by_cases hi : i < dim
  · have := hall i (List.mem_range.mpr hi)
    simpa using this
  · exact Nat.testBit_eq_false_of_lt
      (lt_of_lt_of_le hlt (Nat.pow_le_pow_right (by norm_num)
        (le_of_not_lt hi)))

/-- When no index pair satisfies the contraction condition, the scan leaves
the state unchanged. -/
theorem innerScan_id (dim : Nat) (metric : Nat → Nat → Int) (b1 b2 : Nat)
    (hstep : ∀ st p, innerStep dim metric b1 b2 st p = st)
    (ps : List (Nat × Nat)) (st : Nat × Nat × Int) :
    ps.foldl (innerStep dim metric b1 b2) st = st := by
  induction ps generalizing st with
  | nil => rfl
  | cons p rest ih => rw [List.foldl_cons, hstep st p]; exact ih st

/-- C5 (amended): for every pair of blades of the algebra with disjoint
masks, first, if either operand is the scalar blade the inner-product entry
has sign 0 under any metric whatsoever; and second, under a diagonal metric
(no nonzero off-diagonal entries) the entry has sign 0 for every such
disjoint pair, so under diagonal metrics only overlapping pairs can yield a
nonzero entry. -/
theorem inner_disjoint_zero (dim : Nat) (metric : Nat → Nat → Int)
    (b1 b2 : Nat)
    (h1 : b1 < 2 ^ dim) (h2 : b2 < 2 ^ dim) (hd : b1 &&& b2 = 0) :
    (∀ anyMetric : Nat → Nat → Int, b1 = 0 ∨ b2 = 0 →
      (innerEntry dim anyMetric b1 b2).2 = 0) ∧
    ((∀ i j, i ≠ j → metric i j = 0) →
      (innerEntry dim metric b1 b2).2 = 0) := by
  constructor
  · intro anyMetric hb
    unfold innerEntry
    rw [if_pos hb]
  · intro hdiag
    by_cases hb : b1 = 0 ∨ b2 = 0
    · unfold innerEntry
      rw [if_pos hb]
    · push_neg at hb
      have hstep : ∀ st p, innerStep dim metric b1 b2 st p = st := by
        intro st p
        unfold innerStep
        rw [if_neg]
        rintro ⟨hm, hx1, hx2⟩
        rcases eq_or_ne p.1 p.2 with he | hne
        · rw [he] at hx1
          have hland := Nat.testBit_land b1 b2 p.2
          rw [hd, Nat.zero_testBit] at hland
          simp [hx1, hx2] at hland
        · exact hm (hdiag p.1 p.2 hne)
      have hscan : innerScanResult dim metric b1 b2 = (b1, b2, 1) :=
        innerScan_id dim metric b1 b2 hstep (pairsList dim) (b1, b2, 1)
      have hgrade : grade dim (b1 ^^^ b2) ≠ absGradeDiff dim b1 b2 := by
        have hsum := grade_xor_disjoint dim b1 b2 hd
        have hp1 := grade_pos dim b1 h1 hb.1
        have hp2 := grade_pos dim b2 h2 hb.2
        unfold absGradeDiff
        omega
      unfold innerEntry
      rw [if_neg (by push_neg; exact hb)]
      rw [hscan]
      rw [if_pos (Or.inr hgrade)]

/-- Witness for C5 (amended): the amended statement at the disjoint pair
(e0, e1) in the 2-dimensional Euclidean algebra; the second conjunct applies
since the Euclidean metric is diagonal, giving a zero inner-product entry. -/
theorem inner_disjoint_zero_witness :
    (1 : Nat) < 2 ^ 2 ∧ (2 : Nat) < 2 ^ 2 ∧ (1 : Nat) &&& 2 = 0 ∧
    ((∀ anyMetric : Nat → Nat → Int, (1 : Nat) = 0 ∨ (2 : Nat) = 0 →
        (innerEntry 2 anyMetric 1 2).2 = 0) ∧
      ((∀ i j, i ≠ j → euclideanMetric i j = 0) →
        (innerEntry 2 euclideanMetric 1 2).2 = 0)) :=
  ⟨by decide, by decide, by decide,
    inner_disjoint_zero 2 euclideanMetric 1 2
      (by decide) (by decide) (by decide)⟩

/-- The mask reconstructed from the set bits below dim is the mask modulo
2 ^ dim. -/
theorem maskOf_bladeIndices (dim b : Nat) :
    maskOf (bladeIndices dim b) = b % 2 ^ dim := by
  induction dim with
  | zero => simp [maskOf, bladeIndices, Nat.mod_one]
  | succ n ih =>
      unfold maskOf bladeIndices at ih ⊢
      rw [List.range_succ, List.filter_append, List.map_append,
        List.sum_append, ih]
      have hpow : (2 : Nat) ^ (n + 1) = 2 ^ n * 2 := by ring
      rw [hpow, Nat.mod_mul]
      have htb : b.testBit n = decide (b / 2 ^ n % 2 = 1) :=
        Nat.testBit_to_div_mod
      by_cases h : b.testBit n
      · have h1 : b / 2 ^ n % 2 = 1 := by
          rw [h] at htb
          exact of_decide_eq_true htb.symm
        simp [h, h1]
      · have hne : ¬ b / 2 ^ n % 2 = 1 := by
          intro hc
          apply h
          rw [htb, hc]
          rfl
        have h1 : b / 2 ^ n % 2 = 0 := by omega
        simp [h, h1]

/-- C7: the scalar blade is a left identity of the geometric product: for
every blade of the algebra, the geometric-product Cayley entry of
(scalarBlade, b) is the blade b itself with sign 1, under any metric. -/
theorem geo_scalar_left_identity (dim : Nat) (metric : Nat → Nat → Int)
    (b : Nat) (hb : b < 2 ^ dim) : geoEntry dim metric 0 b = (b, 1) := by
  unfold geoEntry
  have h0 : bladeIndices dim 0 = [] := by
    simp [bladeIndices]
  rw [h0]
  simp only [List.reverse_nil, geoMergeRev]
  rw [if_neg (by norm_num)]
  rw [maskOf_bladeIndices, Nat.mod_eq_of_lt hb]

/-- Witness for C7: the scalar identity at the Euclidean 3-dimensional
algebra on the blade e0e2 (mask 5). -/
theorem geo_scalar_left_identity_witness :
    (5 : Nat) < 2 ^ 3 ∧ geoEntry 3 euclideanMetric 0 5 = (5, 1) :=
  ⟨by decide, geo_scalar_left_identity 3 euclideanMetric 5 (by decide)⟩

end GafroSpec
